import Mathlib

/-!
Verification of the fintech-ecosystem ledger core and its Python quickstart.

The repository's visible code is `examples/python/01-quickstart/main.py`, a
demonstration script calling `record_transaction` and `get_account` on a
remote ledger service. The ledger engine itself is not part of the visible
source, so its data model and operations below are modelled from the
specification (each such definition says so in its doc comment). The
quickstart script's own behaviour (its try/except structure and its
dict-with-default reads) is embedded directly from `main.py`.
-/

namespace Fintech

/-- Modelled from the spec (§3 Data Model): transaction status, one of
`Committed`, `Rejected`. -/
inductive TxStatus
  | Committed
  | Rejected
deriving DecidableEq, Repr

/-- Modelled from the spec (§3 Data Model): a ledger transaction.
`transaction_id` is system-generated at commit time; `amount` is a signed
integer in minor units; `reference_id` is the caller-supplied deduplication
key. -/
structure Transaction where
  transaction_id : Nat
  account_id : String
  amount : Int
  currency : String
  description : String
  reference_id : String
  status : TxStatus
deriving DecidableEq, Repr

/-- Modelled from the spec (§3 Data Model): an account in the Account
Balance Store, with materialized `balance` (signed integer, minor units)
and a `version` counter for optimistic concurrency. -/
structure Account where
  account_id : String
  currency : String
  balance : Int
  version : Nat
deriving DecidableEq, Repr

/-- Modelled from the spec (§7 Error taxonomy): the errors the ledger core
can surface to a caller on `RecordTransaction`. -/
inductive LedgerError
  | InvalidInput
  | CurrencyMismatch
  | Conflict
  | NotFound
deriving DecidableEq, Repr

/-- Modelled from the spec (§2, §6): the ledger engine's persisted state —
the append-only Transaction Log (in per-account commit order) and the
materialized Account Balance Store. -/
structure LedgerState where
  log : List Transaction
  accounts : List Account
deriving DecidableEq, Repr

/-- The initial state: empty log, no accounts. -/
def emptyState : LedgerState := ⟨[], []⟩

/-- Modelled from the spec (§4.4 step 1): a representative set of
recognized ISO 4217 currency codes. -/
def recognizedCurrencies : List String := ["USD", "EUR", "GBP", "JPY"]

/-- Modelled from the spec (§6): the argument tuple of
`RecordTransaction(account_id, amount, currency, description, reference_id)`. -/
structure Request where
  account_id : String
  amount : Int
  currency : String
  description : String
  reference_id : String
deriving DecidableEq, Repr

/-- Modelled from the spec (§4.4 step 1 Validate): amount is a non-zero
integer, currency is a recognized code, `reference_id` and `account_id`
are non-empty. -/
def validate (r : Request) : Bool :=
  r.amount != 0 && recognizedCurrencies.contains r.currency &&
    r.reference_id != "" && r.account_id != ""

/-- Modelled from the spec (§4.2 Transaction Log `Get`): look up the
transaction recorded under a `(account_id, reference_id)` pair, the
Idempotency Guard's deduplication check. -/
def findTx (log : List Transaction) (aid rid : String) : Option Transaction :=
  log.find? fun t => t.account_id == aid && t.reference_id == rid

/-- Modelled from the spec (§4.3 Account Balance Store `Get`): read an
account, `none` for an account never seen before. -/
def getAccount (s : LedgerState) (aid : String) : Option Account :=
  s.accounts.find? fun a => a.account_id == aid

/-- Modelled from the spec (§4.3): write back an updated account record in
the Account Balance Store, inserting it on implicit creation. -/
def setAccount (accts : List Account) (a : Account) : List Account :=
  if accts.any fun b => b.account_id == a.account_id then
    accts.map fun b => if b.account_id == a.account_id then a else b
  else accts ++ [a]

/-- Modelled from the spec (§4.2): derive a balance purely by replay — the
sum of the amounts of the `Committed` transactions of one account. -/
def committedSum (log : List Transaction) (aid : String) : Int :=
  ((log.filter fun t => t.account_id == aid && t.status == TxStatus.Committed).map
    Transaction.amount).sum

/-- Modelled from the spec (§4.4 step 3a, §9): read the current account
state, treating an absent account as balance zero in the request's
currency (implicit creation policy). -/
def readAccount (s : LedgerState) (r : Request) : Account :=
  (getAccount s r.account_id).getD ⟨r.account_id, r.currency, 0, 0⟩

/-- Modelled from the spec (§3, §4.4): the transaction the engine records
for a request, with a system-generated `transaction_id` (the next log
position) and the given status. -/
def newTx (s : LedgerState) (r : Request) (st : TxStatus) : Transaction :=
  ⟨s.log.length, r.account_id, r.amount, r.currency, r.description, r.reference_id, st⟩

/-- Modelled from the spec (§4.3 `ApplyDelta`): add the amount to the
balance and increment `version`. -/
def applyDelta (acct : Account) (amount : Int) : Account :=
  ⟨acct.account_id, acct.currency, acct.balance + amount, acct.version + 1⟩

/-- Modelled from the spec (§5, §4.4 step 3e): the bounded number of
internal retry attempts on `VersionConflict`. -/
def maxRetries : Nat := 3

/-- Modelled from the spec (§4.4 steps 2–3): one pass of the commit
protocol, looped on `VersionConflict`. `fuel` bounds the retries; `oracle`
is the environment's conflict schedule — its head says whether this
attempt loses the optimistic-concurrency race (the race itself lives in
the storage collaborator, outside this core). Each attempt re-checks
idempotency, re-reads the account (implicit creation: absent accounts are
treated as balance zero with the request's currency), rejects on currency
mismatch (logging a `Rejected` record for audit), and otherwise appends
the `Committed` transaction and applies the balance delta as one atomic
unit, bumping `version`. -/
def commitLoop (fuel : Nat) (oracle : List Bool) (s : LedgerState) (r : Request) :
    Except LedgerError Transaction × LedgerState :=
  match fuel with
  | 0 => (Except.error LedgerError.Conflict, s)
  | fuel + 1 =>
    match findTx s.log r.account_id r.reference_id with
    | some t => (Except.ok t, s)
    | none =>
      if (readAccount s r).currency ≠ r.currency then
        (Except.error LedgerError.CurrencyMismatch,
          ⟨s.log ++ [newTx s r TxStatus.Rejected], s.accounts⟩)
      else
        match oracle with
        | true :: rest => commitLoop fuel rest s r
        | _ =>
          (Except.ok (newTx s r TxStatus.Committed),
            ⟨s.log ++ [newTx s r TxStatus.Committed],
              setAccount s.accounts (applyDelta (readAccount s r) r.amount)⟩)

/-- Modelled from the spec (§4.4 Ledger Service `RecordTransaction`): the
full state machine — validate, then the deduplicate/commit loop with the
bounded retry budget, against a given conflict schedule. -/
def recordTransactionR (oracle : List Bool) (s : LedgerState) (r : Request) :
    Except LedgerError Transaction × LedgerState :=
  if validate r then commitLoop maxRetries oracle s r
  else (Except.error LedgerError.InvalidInput, s)

/-- Modelled from the spec (§4.4): `RecordTransaction` in a conflict-free
environment (the empty conflict schedule: no attempt loses a race). -/
def recordTransaction (s : LedgerState) (r : Request) :
    Except LedgerError Transaction × LedgerState :=
  recordTransactionR [] s r

/-- Modelled from the spec (§6 `GetAccount`): the balance a reader
observes for an account, zero for an account never seen. -/
def balanceOf (s : LedgerState) (aid : String) : Int :=
  ((getAccount s aid).map Account.balance).getD 0

/-- Run a sequence of `RecordTransaction` calls from a state, collecting
each call's result and the final state: one serialization order of the
calls. -/
def runResults (s : LedgerState) (rs : List Request) :
    List (Except LedgerError Transaction) × LedgerState :=
  match rs with
  | [] => ([], s)
  | r :: rest =>
    let p := recordTransaction s r
    let q := runResults p.2 rest
    (p.1 :: q.1, q.2)

/-- The state after a sequence of `RecordTransaction` calls from the
initial state. -/
def runRequests (rs : List Request) : LedgerState :=
  (runResults emptyState rs).2

/-- Run a sequence of `RecordTransaction` calls, each against its own
conflict schedule, from the initial state: the observable states of the
engine under an arbitrary environment. -/
def runRequestsR (trace : List (List Bool × Request)) : LedgerState :=
  trace.foldl (fun s p => (recordTransactionR p.1 s p.2).2) emptyState

/-- The spec's §2/§4.2 consistency requirement on an engine state: every
materialized balance in the Account Balance Store equals the replay sum of
that account's `Committed` transactions in the Transaction Log, and an
account absent from the store has no committed transactions in the log. -/
def Consistent (s : LedgerState) : Prop :=
  (∀ a ∈ s.accounts, a.balance = committedSum s.log a.account_id) ∧
  ∀ aid, getAccount s aid = none → committedSum s.log aid = 0

end Fintech

namespace Quickstart

/-- A Python value as the quickstart script handles them: the account
object's fields are integers or strings. -/
inductive PyVal
  | vint (n : Int)
  | vstr (s : String)
deriving DecidableEq, Repr

/-- A Python dict as returned by `client.ledger.get_account`. -/
def PyDict := List (String × PyVal)

/-- `d.get(k, dflt)` — Python's dict lookup with a default
(`main.py` lines 46–47). -/
def dictGet (d : PyDict) (k : String) (dflt : PyVal) : PyVal :=
  match d.find? fun kv => kv.1 == k with
  | some kv => kv.2
  | none => dflt

/-- `f"   Balance: \x7bbalance/100:.2f\x7d \x7bcurrency\x7d"`
(`main.py` line 50): dividing an integer balance by 100 succeeds; dividing
a string raises `TypeError`, which the surrounding try/except catches. The
numeric text itself is opaque here. -/
def formatBalance (balance currency : PyVal) : Except String String :=
  match balance with
  | PyVal.vint n =>
    Except.ok ("   Balance: " ++ toString n ++ "/100 " ++
      (match currency with
       | PyVal.vint m => toString m
       | PyVal.vstr c => c))
  | PyVal.vstr _ => Except.error "TypeError: unsupported operand"

/-- The body of `main`'s try block (`main.py` lines 18–50), as a function
of the outcomes of the two client calls: record the transaction, fetch the
account, read `balance` (default `0`) and `currency` (default `'USD'`)
with dict defaults, and format the balance line. An `Except.error` is a
raised Python exception propagating out of the block. -/
def quickstartBody (recordResult : Except String PyVal)
    (getResult : Except String PyDict) : Except String String := do
  let _tx ← recordResult
  let account ← getResult
  formatBalance (dictGet account "balance" (PyVal.vint 0))
    (dictGet account "currency" (PyVal.vstr "USD"))

/-- How `main` ends: either the success path ran to its last print, or the
`except Exception` handler printed the error message (`main.py`
lines 52–53). -/
inductive MainOutcome
  | success (line : String)
  | errorPrinted (msg : String)
deriving DecidableEq, Repr

/-- `try: ... except Exception as e: print(f"❌ Error: \x7be\x7d")`
(`main.py` lines 18–53): every exception from the body is caught and
turned into a printed message; nothing propagates. -/
def tryExceptAll (body : Except String String) : MainOutcome :=
  match body with
  | Except.ok line => MainOutcome.success line
  | Except.error e => MainOutcome.errorPrinted ("❌ Error: " ++ e)

/-- `main()` from `main.py`, as a function of the client-call outcomes. -/
def quickstartMain (recordResult : Except String PyVal)
    (getResult : Except String PyDict) : MainOutcome :=
  tryExceptAll (quickstartBody recordResult getResult)

end Quickstart

namespace Fintech

theorem find?_append_none {α : Type} {p : α → Bool} {l₁ : List α} (l₂ : List α)
    (h : l₁.find? p = none) : (l₁ ++ l₂).find? p = l₂.find? p := by
  rw [List.find?_append, h, Option.none_or]

theorem committedSum_append (l₁ l₂ : List Transaction) (aid : String) :
    committedSum (l₁ ++ l₂) aid = committedSum l₁ aid + committedSum l₂ aid := by
  simp [committedSum, List.filter_append]

theorem committedSum_nil (aid : String) : committedSum [] aid = 0 := rfl

theorem committedSum_singleton_committed (t : Transaction) (aid : String)
    (h : t.account_id = aid) (hs : t.status = TxStatus.Committed) :
    committedSum [t] aid = t.amount := by
  simp [committedSum, List.filter, h, hs]

theorem committedSum_singleton_rejected (t : Transaction) (aid : String)
    (hs : t.status = TxStatus.Rejected) :
    committedSum [t] aid = 0 := by
  simp [committedSum, List.filter_cons, hs]

theorem committedSum_singleton_other (t : Transaction) (aid : String)
    (h : t.account_id ≠ aid) :
    committedSum [t] aid = 0 := by
  simp [committedSum, List.filter_cons, h]

theorem mem_setAccount {accts : List Account} {a b : Account}
    (hb : b ∈ setAccount accts a) :
    b = a ∨ (b ∈ accts ∧ b.account_id ≠ a.account_id) := by
  unfold setAccount at hb
  by_cases h : (accts.any fun c => c.account_id == a.account_id) = true
  · rw [if_pos h] at hb
    rcases List.mem_map.mp hb with ⟨c, hc, hcb⟩
    by_cases hca : (c.account_id == a.account_id) = true
    · rw [if_pos hca] at hcb
      exact Or.inl hcb.symm
    · rw [if_neg hca] at hcb
      subst hcb
      exact Or.inr ⟨hc, by simpa using hca⟩
  · rw [if_neg h] at hb
    rcases List.mem_append.mp hb with hb | hb
    · refine Or.inr ⟨hb, ?_⟩
      have h' : (accts.any fun c => c.account_id == a.account_id) = false := by
        simpa using h
      simpa using List.any_eq_false.mp h' b hb
    · exact Or.inl (List.mem_singleton.mp hb)

theorem find?_map_set_self (a : Account) :
    ∀ (accts : List Account),
      (accts.any fun c => c.account_id == a.account_id) = true →
      ((accts.map fun b => if b.account_id == a.account_id then a else b).find?
        fun b => b.account_id == a.account_id) = some a := by
  intro accts
  induction accts with
  | nil => intro h; simp at h
  | cons c cs ih =>
    intro h
    by_cases hc : (c.account_id == a.account_id) = true
    · rw [List.map_cons, if_pos hc]
      exact List.find?_cons_of_pos _ (by simp)
    · rw [List.map_cons, if_neg hc,
        @List.find?_cons_of_neg Account (fun b => b.account_id == a.account_id) c _ hc]
      refine ih ?_
      rcases List.any_eq_true.mp h with ⟨d, hd, hda⟩
      rcases List.mem_cons.mp hd with rfl | hd
      · exact absurd hda hc
      · exact List.any_eq_true.mpr ⟨d, hd, hda⟩

theorem find?_map_set_ne (a : Account) (aid : String) (h : aid ≠ a.account_id) :
    ∀ (accts : List Account),
      ((accts.map fun b => if b.account_id == a.account_id then a else b).find?
        fun b => b.account_id == aid) = accts.find? fun b => b.account_id == aid := by
  intro accts
  induction accts with
  | nil => rfl
  | cons c cs ih =>
    by_cases hc : (c.account_id == a.account_id) = true
    · have hcid : c.account_id = a.account_id := by simpa using hc
      have hpa : ¬(a.account_id == aid) = true := by simp [Ne.symm h]
      have hpc : ¬(c.account_id == aid) = true := by simp [hcid, Ne.symm h]
      rw [List.map_cons, if_pos hc,
        @List.find?_cons_of_neg Account (fun b => b.account_id == aid) a _ hpa,
        @List.find?_cons_of_neg Account (fun b => b.account_id == aid) c _ hpc]
      exact ih
    · rw [List.map_cons, if_neg hc]
      by_cases hp : (c.account_id == aid) = true
      · rw [@List.find?_cons_of_pos Account (fun b => b.account_id == aid) c _ hp,
          @List.find?_cons_of_pos Account (fun b => b.account_id == aid) c _ hp]
      · rw [@List.find?_cons_of_neg Account (fun b => b.account_id == aid) c _ hp,
          @List.find?_cons_of_neg Account (fun b => b.account_id == aid) c _ hp]
        exact ih

theorem find?_setAccount_self (accts : List Account) (a : Account) :
    ((setAccount accts a).find? fun b => b.account_id == a.account_id) = some a := by
  unfold setAccount
  by_cases h : (accts.any fun c => c.account_id == a.account_id) = true
  · rw [if_pos h]
    exact find?_map_set_self a accts h
  · rw [if_neg h]
    have h' : (accts.any fun c => c.account_id == a.account_id) = false := by
      simpa using h
    have hnone : (accts.find? fun b => b.account_id == a.account_id) = none :=
      List.find?_eq_none.mpr fun c hc => List.any_eq_false.mp h' c hc
    rw [find?_append_none _ hnone]
    exact List.find?_cons_of_pos _ (by simp)

theorem find?_setAccount_ne (accts : List Account) (a : Account) (aid : String)
    (h : aid ≠ a.account_id) :
    ((setAccount accts a).find? fun b => b.account_id == aid) =
      accts.find? fun b => b.account_id == aid := by
  unfold setAccount
  by_cases hany : (accts.any fun c => c.account_id == a.account_id) = true
  · rw [if_pos hany]
    exact find?_map_set_ne a aid h accts
  · rw [if_neg hany, List.find?_append]
    have h' : ([a].find? fun b => b.account_id == aid) = none :=
      List.find?_eq_none.mpr fun c hc => by
        rcases List.mem_singleton.mp hc with rfl
        simp [Ne.symm h]
    rw [h', Option.or_none]

end Fintech

namespace Fintech

theorem newTx_account_id (s : LedgerState) (r : Request) (st : TxStatus) :
    (newTx s r st).account_id = r.account_id := rfl

theorem newTx_reference_id (s : LedgerState) (r : Request) (st : TxStatus) :
    (newTx s r st).reference_id = r.reference_id := rfl

theorem newTx_amount (s : LedgerState) (r : Request) (st : TxStatus) :
    (newTx s r st).amount = r.amount := rfl

theorem newTx_status (s : LedgerState) (r : Request) (st : TxStatus) :
    (newTx s r st).status = st := rfl

theorem applyDelta_account_id (a : Account) (x : Int) :
    (applyDelta a x).account_id = a.account_id := rfl

theorem applyDelta_currency (a : Account) (x : Int) :
    (applyDelta a x).currency = a.currency := rfl

theorem applyDelta_balance (a : Account) (x : Int) :
    (applyDelta a x).balance = a.balance + x := rfl

theorem readAccount_id (s : LedgerState) (r : Request) :
    (readAccount s r).account_id = r.account_id := by
  unfold readAccount
  cases hga : getAccount s r.account_id with
  | none => rfl
  | some a =>
    rw [Option.getD_some]
    simpa using List.find?_some hga

theorem readAccount_balance (s : LedgerState) (r : Request) (hc : Consistent s) :
    (readAccount s r).balance = committedSum s.log r.account_id := by
  unfold readAccount
  cases hga : getAccount s r.account_id with
  | none =>
    rw [Option.getD_none]
    exact (hc.2 r.account_id hga).symm
  | some a =>
    rw [Option.getD_some]
    have hmem := List.mem_of_find?_eq_some hga
    have hid : a.account_id = r.account_id := by simpa using List.find?_some hga
    rw [hc.1 a hmem, hid]

theorem commitLoop_dedup (fuel : Nat) (oracle : List Bool) (s : LedgerState)
    (r : Request) (t : Transaction)
    (hft : findTx s.log r.account_id r.reference_id = some t) :
    commitLoop (fuel + 1) oracle s r = (Except.ok t, s) := by
  simp only [commitLoop, hft]

theorem commitLoop_mismatch (fuel : Nat) (oracle : List Bool) (s : LedgerState)
    (r : Request)
    (hft : findTx s.log r.account_id r.reference_id = none)
    (hcur : (readAccount s r).currency ≠ r.currency) :
    commitLoop (fuel + 1) oracle s r =
      (Except.error LedgerError.CurrencyMismatch,
        ⟨s.log ++ [newTx s r TxStatus.Rejected], s.accounts⟩) := by
  simp only [commitLoop, hft]
  rw [if_pos hcur]

theorem commitLoop_conflict (fuel : Nat) (rest : List Bool) (s : LedgerState)
    (r : Request)
    (hft : findTx s.log r.account_id r.reference_id = none)
    (hcur : (readAccount s r).currency = r.currency) :
    commitLoop (fuel + 1) (true :: rest) s r = commitLoop fuel rest s r := by
  simp only [commitLoop, hft]
  rw [if_neg (not_not_intro hcur)]

theorem commitLoop_commit_nil (fuel : Nat) (s : LedgerState) (r : Request)
    (hft : findTx s.log r.account_id r.reference_id = none)
    (hcur : (readAccount s r).currency = r.currency) :
    commitLoop (fuel + 1) [] s r =
      (Except.ok (newTx s r TxStatus.Committed),
        ⟨s.log ++ [newTx s r TxStatus.Committed],
          setAccount s.accounts (applyDelta (readAccount s r) r.amount)⟩) := by
  simp only [commitLoop, hft]
  rw [if_neg (not_not_intro hcur)]

theorem commitLoop_commit_false (fuel : Nat) (rest : List Bool) (s : LedgerState)
    (r : Request)
    (hft : findTx s.log r.account_id r.reference_id = none)
    (hcur : (readAccount s r).currency = r.currency) :
    commitLoop (fuel + 1) (false :: rest) s r =
      (Except.ok (newTx s r TxStatus.Committed),
        ⟨s.log ++ [newTx s r TxStatus.Committed],
          setAccount s.accounts (applyDelta (readAccount s r) r.amount)⟩) := by
  simp only [commitLoop, hft]
  rw [if_neg (not_not_intro hcur)]

theorem consistent_rejectState (s : LedgerState) (r : Request) (hc : Consistent s) :
    Consistent ⟨s.log ++ [newTx s r TxStatus.Rejected], s.accounts⟩ := by
  constructor
  · intro a ha
    rw [committedSum_append, committedSum_singleton_rejected _ _ (newTx_status s r _),
      add_zero]
    exact hc.1 a ha
  · intro aid hnone
    have hacc : getAccount s aid = none := hnone
    rw [committedSum_append, committedSum_singleton_rejected _ _ (newTx_status s r _),
      add_zero]
    exact hc.2 aid hacc

theorem consistent_commitState (s : LedgerState) (r : Request) (hc : Consistent s) :
    Consistent ⟨s.log ++ [newTx s r TxStatus.Committed],
      setAccount s.accounts (applyDelta (readAccount s r) r.amount)⟩ := by
  have hid : (readAccount s r).account_id = r.account_id := readAccount_id s r
  have hbal : (readAccount s r).balance = committedSum s.log r.account_id :=
    readAccount_balance s r hc
  constructor
  · intro b hb
    rcases mem_setAccount hb with rfl | ⟨hbmem, hbne⟩
    · rw [applyDelta_balance, applyDelta_account_id, committedSum_append, hid,
        committedSum_singleton_committed _ r.account_id (newTx_account_id s r _)
          (newTx_status s r _), newTx_amount, hbal]
    · have hbne' : b.account_id ≠ r.account_id := by
        rwa [applyDelta_account_id, hid] at hbne
      rw [committedSum_append,
        committedSum_singleton_other _ b.account_id
          (by rw [newTx_account_id]; exact Ne.symm hbne'), add_zero]
      exact hc.1 b hbmem
  · intro aid hnone
    have hnone' : ((setAccount s.accounts (applyDelta (readAccount s r) r.amount)).find?
        fun b => b.account_id == aid) = none := hnone
    have hne : aid ≠ (applyDelta (readAccount s r) r.amount).account_id := by
      intro hh
      have hself := find?_setAccount_self s.accounts (applyDelta (readAccount s r) r.amount)
      rw [← hh] at hself
      rw [hnone'] at hself
      exact Option.noConfusion hself
    have hacc : getAccount s aid = none := by
      show (s.accounts.find? fun b => b.account_id == aid) = none
      rw [← find?_setAccount_ne s.accounts (applyDelta (readAccount s r) r.amount) aid hne]
      exact hnone'
    have haidr : aid ≠ r.account_id := by
      have h' := hne
      rwa [applyDelta_account_id, hid] at h'
    rw [committedSum_append,
      committedSum_singleton_other _ aid
        (by rw [newTx_account_id]; exact Ne.symm haidr), add_zero]
    exact hc.2 aid hacc

theorem consistent_commitLoop (fuel : Nat) (oracle : List Bool) (s : LedgerState)
    (r : Request) (hc : Consistent s) :
    Consistent (commitLoop fuel oracle s r).2 := by
  induction fuel generalizing oracle with
  | zero => exact hc
  | succ fuel ih =>
    cases hft : findTx s.log r.account_id r.reference_id with
    | some t =>
      rw [commitLoop_dedup fuel oracle s r t hft]
      exact hc
    | none =>
      by_cases hcur : (readAccount s r).currency = r.currency
      · rcases oracle with _ | ⟨_ | _, rest⟩
        · rw [commitLoop_commit_nil fuel s r hft hcur]
          exact consistent_commitState s r hc
        · rw [commitLoop_commit_false fuel rest s r hft hcur]
          exact consistent_commitState s r hc
        · rw [commitLoop_conflict fuel rest s r hft hcur]
          exact ih rest
      · rw [commitLoop_mismatch fuel oracle s r hft hcur]
        exact consistent_rejectState s r hc

theorem consistent_emptyState : Consistent emptyState := by
  constructor
  · intro a ha
    simp [emptyState] at ha
  · intro aid _
    rfl

theorem consistent_recordTransactionR (oracle : List Bool) (s : LedgerState)
    (r : Request) (hc : Consistent s) :
    Consistent (recordTransactionR oracle s r).2 := by
  unfold recordTransactionR
  by_cases hv : validate r = true
  · rw [if_pos hv]
    exact consistent_commitLoop maxRetries oracle s r hc
  · rw [if_neg hv]
    exact hc

theorem consistent_foldR (trace : List (List Bool × Request)) :
    ∀ s : LedgerState, Consistent s →
      Consistent (trace.foldl (fun s p => (recordTransactionR p.1 s p.2).2) s) := by
  induction trace with
  | nil => exact fun s hc => hc
  | cons p rest ih =>
    intro s hc
    exact ih _ (consistent_recordTransactionR p.1 s p.2 hc)

theorem consistent_runRequestsR (trace : List (List Bool × Request)) :
    Consistent (runRequestsR trace) :=
  consistent_foldR trace emptyState consistent_emptyState

theorem consistent_runResults (rs : List Request) :
    ∀ s : LedgerState, Consistent s → Consistent (runResults s rs).2 := by
  induction rs with
  | nil => exact fun s hc => hc
  | cons r rest ih =>
    intro s hc
    exact ih _ (consistent_recordTransactionR [] s r hc)

end Fintech

namespace Fintech

theorem validate_of_ok (s s₁ : LedgerState) (r : Request) (t : Transaction)
    (h : recordTransaction s r = (Except.ok t, s₁)) : validate r = true := by
  by_contra hv
  unfold recordTransaction recordTransactionR at h
  rw [if_neg hv] at h
  simp at h

theorem findTx_after_ok (s s₁ : LedgerState) (r : Request) (t : Transaction)
    (h : recordTransaction s r = (Except.ok t, s₁)) :
    findTx s₁.log r.account_id r.reference_id = some t := by
  have hv := validate_of_ok s s₁ r t h
  unfold recordTransaction recordTransactionR at h
  rw [if_pos hv, show maxRetries = 2 + 1 from rfl] at h
  cases hft : findTx s.log r.account_id r.reference_id with
  | some t' =>
    rw [commitLoop_dedup 2 [] s r t' hft] at h
    simp only [Prod.mk.injEq, Except.ok.injEq] at h
    obtain ⟨h1, h2⟩ := h
    subst h1
    subst h2
    exact hft
  | none =>
    by_cases hcur : (readAccount s r).currency = r.currency
    · rw [commitLoop_commit_nil 2 s r hft hcur] at h
      simp only [Prod.mk.injEq, Except.ok.injEq] at h
      obtain ⟨h1, h2⟩ := h
      subst h1
      subst h2
      show findTx (s.log ++ [newTx s r TxStatus.Committed]) r.account_id r.reference_id
        = some (newTx s r TxStatus.Committed)
      unfold findTx at hft ⊢
      rw [find?_append_none _ hft]
      exact List.find?_cons_of_pos _ (by simp [newTx])
    · rw [commitLoop_mismatch 2 [] s r hft hcur] at h
      simp at h

theorem commitLoop_take (fuel : Nat) :
    ∀ (oracle : List Bool) (s : LedgerState) (r : Request),
      commitLoop fuel oracle s r = commitLoop fuel (oracle.take fuel) s r := by
  induction fuel with
  | zero =>
    intro oracle s r
    rfl
  | succ fuel ih =>
    intro oracle s r
    cases hft : findTx s.log r.account_id r.reference_id with
    | some t =>
      rw [commitLoop_dedup _ _ _ _ _ hft, commitLoop_dedup _ _ _ _ _ hft]
    | none =>
      by_cases hcur : (readAccount s r).currency = r.currency
      · rcases oracle with _ | ⟨_ | _, rest⟩
        · rfl
        · simp only [List.take_succ_cons]
          rw [commitLoop_commit_false _ _ _ _ hft hcur,
            commitLoop_commit_false _ _ _ _ hft hcur]
        · simp only [List.take_succ_cons]
          rw [commitLoop_conflict _ _ _ _ hft hcur, commitLoop_conflict _ _ _ _ hft hcur]
          exact ih rest s r
      · rw [commitLoop_mismatch _ _ _ _ hft hcur, commitLoop_mismatch _ _ _ _ hft hcur]

theorem commitLoop_ok_or_conflict (fuel : Nat) :
    ∀ (oracle : List Bool) (s : LedgerState) (r : Request),
      findTx s.log r.account_id r.reference_id = none →
      (readAccount s r).currency = r.currency →
      commitLoop fuel oracle s r =
          (Except.ok (newTx s r TxStatus.Committed),
            ⟨s.log ++ [newTx s r TxStatus.Committed],
              setAccount s.accounts (applyDelta (readAccount s r) r.amount)⟩) ∨
        commitLoop fuel oracle s r = (Except.error LedgerError.Conflict, s) := by
  induction fuel with
  | zero =>
    intro oracle s r _ _
    exact Or.inr rfl
  | succ fuel ih =>
    intro oracle s r hft hcur
    rcases oracle with _ | ⟨_ | _, rest⟩
    · exact Or.inl (commitLoop_commit_nil _ _ _ hft hcur)
    · exact Or.inl (commitLoop_commit_false _ _ _ _ hft hcur)
    · rw [commitLoop_conflict _ _ _ _ hft hcur]
      exact ih rest s r hft hcur

theorem findTx_append_none (l : List Transaction) (t : Transaction) (aid rid : String)
    (h : findTx l aid rid = none) (ht : t.reference_id ≠ rid) :
    findTx (l ++ [t]) aid rid = none := by
  unfold findTx at h ⊢
  rw [find?_append_none _ h]
  refine List.find?_eq_none.mpr fun c hc => ?_
  rcases List.mem_singleton.mp hc with rfl
  simp [ht]

end Fintech

namespace Fintech

theorem commit_all_aux (aid c : String) :
    ∀ (rs : List Request) (s : LedgerState),
      (∀ r ∈ rs, r.account_id = aid ∧ r.currency = c ∧ validate r = true) →
      (rs.map Request.reference_id).Nodup →
      (∀ r ∈ rs, findTx s.log aid r.reference_id = none) →
      (getAccount s aid = none ∨ ∃ a, getAccount s aid = some a ∧ a.currency = c) →
      (∀ e ∈ (runResults s rs).1, ∃ t, e = Except.ok t ∧ t.status = TxStatus.Committed) ∧
        balanceOf (runResults s rs).2 aid = balanceOf s aid + (rs.map Request.amount).sum := by
  intro rs
  induction rs with
  | nil =>
    intro s _ _ _ _
    refine ⟨fun e he => absurd he (List.not_mem_nil e), ?_⟩
    simp [runResults]
  | cons r rest ih =>
    intro s hprops hnodup hfresh hacct
    obtain ⟨hraid, hrcur, hrval⟩ := hprops r (List.mem_cons_self r rest)
    have hft : findTx s.log r.account_id r.reference_id = none := by
      rw [hraid]
      exact hfresh r (List.mem_cons_self r rest)
    have hcur : (readAccount s r).currency = r.currency := by
      rcases hacct with hnone | ⟨a, hsome, hac⟩
      · unfold readAccount
        rw [hraid, hnone, Option.getD_none]
      · unfold readAccount
        rw [hraid, hsome, Option.getD_some, hac, hrcur]
    have hstep : recordTransaction s r =
        (Except.ok (newTx s r TxStatus.Committed),
          ⟨s.log ++ [newTx s r TxStatus.Committed],
            setAccount s.accounts (applyDelta (readAccount s r) r.amount)⟩) := by
      unfold recordTransaction recordTransactionR
      rw [if_pos hrval, show maxRetries = 2 + 1 from rfl]
      exact commitLoop_commit_nil 2 s r hft hcur
    have hnodup' : (rest.map Request.reference_id).Nodup := by
      simp only [List.map_cons] at hnodup
      exact hnodup.of_cons
    have hheadref : r.reference_id ∉ rest.map Request.reference_id := by
      simp only [List.map_cons] at hnodup
      exact (List.nodup_cons.mp hnodup).1
    have hfresh' : ∀ r' ∈ rest,
        findTx (s.log ++ [newTx s r TxStatus.Committed]) aid r'.reference_id = none := by
      intro r' hr'
      refine findTx_append_none s.log _ aid r'.reference_id (hfresh r' (List.mem_cons_of_mem r hr')) ?_
      rw [newTx_reference_id]
      intro hh
      exact hheadref (hh ▸ List.mem_map_of_mem Request.reference_id hr')
    have hidA : (applyDelta (readAccount s r) r.amount).account_id = aid := by
      rw [applyDelta_account_id, readAccount_id, hraid]
    have hgetacc :
        getAccount ⟨s.log ++ [newTx s r TxStatus.Committed],
            setAccount s.accounts (applyDelta (readAccount s r) r.amount)⟩ aid
          = some (applyDelta (readAccount s r) r.amount) := by
      show ((setAccount s.accounts (applyDelta (readAccount s r) r.amount)).find?
        fun b => b.account_id == aid) = some (applyDelta (readAccount s r) r.amount)
      rw [← hidA]
      exact find?_setAccount_self s.accounts _
    have hcurr : (applyDelta (readAccount s r) r.amount).currency = c := by
      rw [applyDelta_currency, hcur, hrcur]
    obtain ⟨ihok, ihbal⟩ := ih ⟨s.log ++ [newTx s r TxStatus.Committed],
        setAccount s.accounts (applyDelta (readAccount s r) r.amount)⟩
      (fun r' hr' => hprops r' (List.mem_cons_of_mem r hr')) hnodup' hfresh'
      (Or.inr ⟨applyDelta (readAccount s r) r.amount, hgetacc, hcurr⟩)
    have hrun1 : (runResults s (r :: rest)).1 =
        Except.ok (newTx s r TxStatus.Committed) ::
          (runResults ⟨s.log ++ [newTx s r TxStatus.Committed],
            setAccount s.accounts (applyDelta (readAccount s r) r.amount)⟩ rest).1 := by
      show ((recordTransaction s r).1 ::
        (runResults (recordTransaction s r).2 rest).1) = _
      rw [hstep]
    have hrun2 : (runResults s (r :: rest)).2 =
        (runResults ⟨s.log ++ [newTx s r TxStatus.Committed],
          setAccount s.accounts (applyDelta (readAccount s r) r.amount)⟩ rest).2 := by
      show (runResults (recordTransaction s r).2 rest).2 = _
      rw [hstep]
    have hrb : (readAccount s r).balance = balanceOf s aid := by
      rcases hacct with hnone | ⟨a, hsome, _⟩
      · unfold readAccount balanceOf
        rw [hraid, hnone]
        rfl
      · unfold readAccount balanceOf
        rw [hraid, hsome]
        rfl
    have hbal₁ : balanceOf ⟨s.log ++ [newTx s r TxStatus.Committed],
        setAccount s.accounts (applyDelta (readAccount s r) r.amount)⟩ aid
          = balanceOf s aid + r.amount := by
      show (Option.map Account.balance (getAccount ⟨s.log ++ [newTx s r TxStatus.Committed],
        setAccount s.accounts (applyDelta (readAccount s r) r.amount)⟩ aid)).getD 0
          = balanceOf s aid + r.amount
      rw [hgetacc]
      show (applyDelta (readAccount s r) r.amount).balance = balanceOf s aid + r.amount
      rw [applyDelta_balance, hrb]
    constructor
    · intro e he
      rw [hrun1] at he
      rcases List.mem_cons.mp he with rfl | he'
      · exact ⟨newTx s r TxStatus.Committed, rfl, newTx_status s r _⟩
      · exact ihok e he'
    · rw [hrun2, ihbal, hbal₁, List.map_cons, List.sum_cons, add_assoc]

end Fintech

namespace Fintech

/-- C1: in every state the engine can reach — any sequence of
`RecordTransaction` calls from the initial state, under any conflict
schedule — every account's materialized `balance` equals the sum of the
amounts of the `Committed` transactions recorded against it in the
Transaction Log, and an account absent from the Account Balance Store has
replay sum zero: the balance rebuilt by replaying the log always agrees
with the materialized store. -/
theorem balance_matches_replay (trace : List (List Bool × Request)) :
    Consistent (runRequestsR trace) :=
  consistent_runRequestsR trace

/-- C2: if `RecordTransaction` returned a transaction `t` and left the
engine in state `s₁`, calling it again with the identical request returns
the very same transaction (same `transaction_id`) and leaves the state —
hence the account's balance — unchanged: idempotent replay,
indistinguishable from a fresh success. -/
theorem record_idempotent_replay (s s₁ : LedgerState) (r : Request) (t : Transaction)
    (h : recordTransaction s r = (Except.ok t, s₁)) :
    recordTransaction s₁ r = (Except.ok t, s₁) := by
  have hv := validate_of_ok s s₁ r t h
  have hfind := findTx_after_ok s s₁ r t h
  unfold recordTransaction recordTransactionR
  rw [if_pos hv, show maxRetries = 2 + 1 from rfl]
  exact commitLoop_dedup 2 [] s₁ r t hfind

theorem record_idempotent_replay_witness :
    recordTransaction
        (recordTransaction emptyState ⟨"acc_9", 250, "USD", "deposit", "ref_9"⟩).2
        ⟨"acc_9", 250, "USD", "deposit", "ref_9"⟩
      = (Except.ok ⟨0, "acc_9", 250, "USD", "deposit", "ref_9", TxStatus.Committed⟩,
          (recordTransaction emptyState ⟨"acc_9", 250, "USD", "deposit", "ref_9"⟩).2) :=
  record_idempotent_replay emptyState _ ⟨"acc_9", 250, "USD", "deposit", "ref_9"⟩ _ rfl

/-- C3: a second `RecordTransaction` call with the same
`(account_id, reference_id)` pair but a different amount still returns the
originally recorded transaction — the idempotency key wins over the
changed payload — and leaves the state unchanged, so the new amount is
never applied to the balance. -/
theorem idempotency_wins_over_amount (s s₁ : LedgerState) (r r' : Request)
    (t : Transaction)
    (h : recordTransaction s r = (Except.ok t, s₁))
    (hacc : r'.account_id = r.account_id)
    (href : r'.reference_id = r.reference_id)
    (_hamt : r'.amount ≠ r.amount)
    (hv' : validate r' = true) :
    recordTransaction s₁ r' = (Except.ok t, s₁) := by
  have hfind := findTx_after_ok s s₁ r t h
  unfold recordTransaction recordTransactionR
  rw [if_pos hv', show maxRetries = 2 + 1 from rfl]
  refine commitLoop_dedup 2 [] s₁ r' t ?_
  rw [hacc, href]
  exact hfind

theorem idempotency_wins_over_amount_witness :
    recordTransaction
        (recordTransaction emptyState ⟨"acc_9", 250, "USD", "deposit", "ref_9"⟩).2
        ⟨"acc_9", 999, "USD", "retry", "ref_9"⟩
      = (Except.ok ⟨0, "acc_9", 250, "USD", "deposit", "ref_9", TxStatus.Committed⟩,
          (recordTransaction emptyState ⟨"acc_9", 250, "USD", "deposit", "ref_9"⟩).2) :=
  idempotency_wins_over_amount emptyState _ ⟨"acc_9", 250, "USD", "deposit", "ref_9"⟩
    ⟨"acc_9", 999, "USD", "retry", "ref_9"⟩ _ rfl rfl rfl (by decide) (by decide)

/-- C4: a `RecordTransaction` call whose currency differs from the
account's established currency returns the `CurrencyMismatch` error, the
transaction is appended to the log with status `Rejected` for audit, and
the Account Balance Store — balance and currency included — is unchanged;
the outcome is the same under every conflict schedule, so the error is
never retried. -/
theorem currency_mismatch_rejects (s : LedgerState) (r : Request) (a : Account)
    (hv : validate r = true)
    (hd : findTx s.log r.account_id r.reference_id = none)
    (ha : getAccount s r.account_id = some a)
    (hcur : a.currency ≠ r.currency) :
    ∀ oracle : List Bool,
      recordTransactionR oracle s r =
        (Except.error LedgerError.CurrencyMismatch,
          ⟨s.log ++ [newTx s r TxStatus.Rejected], s.accounts⟩) := by
  intro oracle
  have hra : readAccount s r = a := by
    unfold readAccount
    rw [ha, Option.getD_some]
  unfold recordTransactionR
  rw [if_pos hv, show maxRetries = 2 + 1 from rfl]
  exact commitLoop_mismatch 2 oracle s r hd (by rw [hra]; exact hcur)

theorem currency_mismatch_rejects_witness :
    recordTransactionR [true]
        (recordTransaction emptyState ⟨"acc_9", 250, "USD", "deposit", "ref_9"⟩).2
        ⟨"acc_9", 40, "EUR", "fx", "ref_10"⟩
      = (Except.error LedgerError.CurrencyMismatch,
          ⟨(recordTransaction emptyState ⟨"acc_9", 250, "USD", "deposit", "ref_9"⟩).2.log
              ++ [newTx (recordTransaction emptyState
                    ⟨"acc_9", 250, "USD", "deposit", "ref_9"⟩).2
                  ⟨"acc_9", 40, "EUR", "fx", "ref_10"⟩ TxStatus.Rejected],
            (recordTransaction emptyState
              ⟨"acc_9", 250, "USD", "deposit", "ref_9"⟩).2.accounts⟩) :=
  currency_mismatch_rejects
    (recordTransaction emptyState ⟨"acc_9", 250, "USD", "deposit", "ref_9"⟩).2
    ⟨"acc_9", 40, "EUR", "fx", "ref_10"⟩
    ⟨"acc_9", "USD", 250, 1⟩ (by decide) rfl rfl (by decide) [true]

/-- C5: a request whose amount is zero, whose currency is not a recognized
code, or whose `reference_id` or `account_id` is empty is answered with
the `InvalidInput` error and the state is returned unchanged — no
transaction is logged and no balance changes — under every conflict
schedule, so the engine never retries it. -/
theorem invalid_input_rejects (s : LedgerState) (r : Request)
    (h : r.amount = 0 ∨ recognizedCurrencies.contains r.currency = false ∨
      r.reference_id = "" ∨ r.account_id = "") :
    ∀ oracle : List Bool,
      recordTransactionR oracle s r = (Except.error LedgerError.InvalidInput, s) := by
  intro oracle
  have hv : validate r = false := by
    unfold validate
    rcases h with h | h | h | h
    · simp [h]
    · have h' : r.currency ∉ recognizedCurrencies := by simpa using h
      simp [h']
    · simp [h]
    · simp [h]
  simp [recordTransactionR, hv]

theorem invalid_input_rejects_witness :
    recordTransactionR [] emptyState ⟨"acc_9", 0, "USD", "d", "ref_9"⟩
      = (Except.error LedgerError.InvalidInput, emptyState) :=
  invalid_input_rejects emptyState ⟨"acc_9", 0, "USD", "d", "ref_9"⟩ (Or.inl rfl) []

/-- C6: the retry loop entered on `VersionConflict` is bounded: the
outcome depends only on the first `maxRetries` entries of the conflict
schedule, and for a valid, fresh, currency-matching request the protocol
terminates either with a committed transaction or — when every allowed
attempt loses its race — by surfacing the transient `Conflict` error with
the state unchanged; it never loops indefinitely. -/
theorem conflict_retries_bounded (oracle : List Bool) (s : LedgerState) (r : Request)
    (hv : validate r = true)
    (hd : findTx s.log r.account_id r.reference_id = none)
    (hcur : (readAccount s r).currency = r.currency) :
    recordTransactionR oracle s r = recordTransactionR (oracle.take maxRetries) s r ∧
    ((∃ t s', recordTransactionR oracle s r = (Except.ok t, s') ∧
        t.status = TxStatus.Committed) ∨
      recordTransactionR oracle s r = (Except.error LedgerError.Conflict, s)) := by
  constructor
  · unfold recordTransactionR
    rw [if_pos hv, if_pos hv]
    exact commitLoop_take maxRetries oracle s r
  · unfold recordTransactionR
    rw [if_pos hv]
    rcases commitLoop_ok_or_conflict maxRetries oracle s r hd hcur with h | h
    · exact Or.inl ⟨newTx s r TxStatus.Committed, _, h, rfl⟩
    · exact Or.inr h

theorem conflict_retries_bounded_witness :
    recordTransactionR [true, true, true, true] emptyState
        ⟨"acc_9", 250, "USD", "deposit", "ref_9"⟩
      = recordTransactionR ([true, true, true, true].take maxRetries) emptyState
          ⟨"acc_9", 250, "USD", "deposit", "ref_9"⟩ :=
  (conflict_retries_bounded [true, true, true, true] emptyState
    ⟨"acc_9", 250, "USD", "deposit", "ref_9"⟩ (by decide) rfl rfl).1

/-- C7: per-account serializability, at the granularity at which the spec
defines it (each `RecordTransaction` is one atomic unit, so a concurrent
execution is some serialization order of the calls): for any set of valid
requests against one account with one currency and pairwise-distinct
`reference_id`s, executed in any arrival order, every call commits, the
final balance equals the sum of all the amounts independently of the
order, and after any prefix of the order a `GetAccount` reader observes a
balance equal to the replay sum of the committed transactions of that
prefix — never an intermediate or inconsistent state. -/
theorem per_account_serializable (aid c : String) (rs rs' : List Request)
    (hperm : rs'.Perm rs)
    (hprops : ∀ r ∈ rs, r.account_id = aid ∧ r.currency = c ∧ validate r = true)
    (hnodup : (rs.map Request.reference_id).Nodup) :
    (∀ e ∈ (runResults emptyState rs').1,
        ∃ t, e = Except.ok t ∧ t.status = TxStatus.Committed) ∧
    balanceOf (runRequests rs') aid = (rs.map Request.amount).sum ∧
    ∀ l₁ l₂, rs' = l₁ ++ l₂ →
      ∀ a, getAccount (runRequests l₁) aid = some a →
        a.balance = committedSum (runRequests l₁).log aid := by
  have hprops' : ∀ r ∈ rs', r.account_id = aid ∧ r.currency = c ∧ validate r = true :=
    fun r hr => hprops r (hperm.subset hr)
  have hnodup' : (rs'.map Request.reference_id).Nodup :=
    ((hperm.map Request.reference_id).nodup_iff).mpr hnodup
  obtain ⟨hok, hbal⟩ := commit_all_aux aid c rs' emptyState hprops' hnodup'
    (fun r _ => rfl) (Or.inl rfl)
  refine ⟨hok, ?_, ?_⟩
  · show balanceOf (runResults emptyState rs').2 aid = (rs.map Request.amount).sum
    rw [hbal]
    show (0 : Int) + (rs'.map Request.amount).sum = (rs.map Request.amount).sum
    rw [zero_add]
    exact (hperm.map Request.amount).sum_eq
  · intro l₁ l₂ _ a ha
    have ha' : ((runRequests l₁).accounts.find? fun b => b.account_id == aid)
        = some a := ha
    have hc := consistent_runResults l₁ emptyState consistent_emptyState
    have hid : a.account_id = aid := by simpa using List.find?_some ha'
    rw [← hid]
    exact hc.1 a (List.mem_of_find?_eq_some ha')

theorem per_account_serializable_witness :
    balanceOf (runRequests
        [⟨"a1", 7, "USD", "e", "r2"⟩, ⟨"a1", 5, "USD", "d", "r1"⟩]) "a1"
      = (([⟨"a1", 5, "USD", "d", "r1"⟩, ⟨"a1", 7, "USD", "e", "r2"⟩] : List Request).map
          Request.amount).sum :=
  (per_account_serializable "a1" "USD"
    [⟨"a1", 5, "USD", "d", "r1"⟩, ⟨"a1", 7, "USD", "e", "r2"⟩]
    [⟨"a1", 7, "USD", "e", "r2"⟩, ⟨"a1", 5, "USD", "d", "r1"⟩]
    (by decide) (by decide) (by decide)).2.1

/-- C8: the quickstart scenario on a fresh account: recording amount 1000
in USD commits and makes the balance 1000; repeating the identical call
returns the same transaction and leaves the balance at 1000; recording
amount -300 under a fresh `reference_id` makes the balance 700; reading
the account then yields balance 700 and currency USD. -/
theorem quickstart_scenario :
    (recordTransaction emptyState ⟨"acc_1", 1000, "USD", "deposit", "ref_1"⟩).1
        = Except.ok ⟨0, "acc_1", 1000, "USD", "deposit", "ref_1", TxStatus.Committed⟩ ∧
    balanceOf (recordTransaction emptyState
        ⟨"acc_1", 1000, "USD", "deposit", "ref_1"⟩).2 "acc_1" = 1000 ∧
    recordTransaction
        (recordTransaction emptyState ⟨"acc_1", 1000, "USD", "deposit", "ref_1"⟩).2
        ⟨"acc_1", 1000, "USD", "deposit", "ref_1"⟩
      = (Except.ok ⟨0, "acc_1", 1000, "USD", "deposit", "ref_1", TxStatus.Committed⟩,
          (recordTransaction emptyState ⟨"acc_1", 1000, "USD", "deposit", "ref_1"⟩).2) ∧
    balanceOf (recordTransaction
        (recordTransaction emptyState ⟨"acc_1", 1000, "USD", "deposit", "ref_1"⟩).2
        ⟨"acc_1", 1000, "USD", "deposit", "ref_1"⟩).2 "acc_1" = 1000 ∧
    balanceOf (recordTransaction
        (recordTransaction emptyState ⟨"acc_1", 1000, "USD", "deposit", "ref_1"⟩).2
        ⟨"acc_1", -300, "USD", "withdrawal", "ref_2"⟩).2 "acc_1" = 700 ∧
    getAccount (recordTransaction
        (recordTransaction emptyState ⟨"acc_1", 1000, "USD", "deposit", "ref_1"⟩).2
        ⟨"acc_1", -300, "USD", "withdrawal", "ref_2"⟩).2 "acc_1"
      = some ⟨"acc_1", "USD", 700, 2⟩ :=
  ⟨rfl, rfl, rfl, rfl, rfl, rfl⟩

end Fintech

namespace Quickstart

/-- C9: `main()` of the quickstart script never propagates an exception
from the client calls or the processing between them: it either finishes
the success path or ends in the `except Exception` handler having printed
the error message, and whenever the try-block body raises, the printed
outcome is exactly the handler's message for that exception. -/
theorem main_catches_exceptions (recordResult : Except String PyVal)
    (getResult : Except String PyDict) :
    ((∃ line, quickstartMain recordResult getResult = MainOutcome.success line) ∨
      (∃ e, quickstartMain recordResult getResult
        = MainOutcome.errorPrinted ("❌ Error: " ++ e))) ∧
    ∀ e, quickstartBody recordResult getResult = Except.error e →
      quickstartMain recordResult getResult
        = MainOutcome.errorPrinted ("❌ Error: " ++ e) := by
  constructor
  · cases hb : quickstartBody recordResult getResult with
    | ok line =>
      refine Or.inl ⟨line, ?_⟩
      unfold quickstartMain tryExceptAll
      rw [hb]
    | error e =>
      refine Or.inr ⟨e, ?_⟩
      unfold quickstartMain tryExceptAll
      rw [hb]
  · intro e he
    unfold quickstartMain tryExceptAll
    rw [he]

theorem main_catches_exceptions_witness :
    quickstartMain (Except.error "ConnectionError") (Except.ok [])
      = MainOutcome.errorPrinted ("❌ Error: " ++ "ConnectionError") :=
  (main_catches_exceptions (Except.error "ConnectionError") (Except.ok [])).2
    "ConnectionError" rfl

/-- C10: when the account dict returned by `get_account` has no
`'balance'` key the quickstart reads 0, and when it has no `'currency'`
key it reads `'USD'`, so the balance-reporting step always has a value to
work with. -/
theorem missing_fields_default (account : PyDict) :
    ((account.find? fun kv => kv.1 == "balance") = none →
      dictGet account "balance" (PyVal.vint 0) = PyVal.vint 0) ∧
    ((account.find? fun kv => kv.1 == "currency") = none →
      dictGet account "currency" (PyVal.vstr "USD") = PyVal.vstr "USD") := by
  constructor <;> intro h <;> unfold dictGet <;> rw [h]

theorem missing_fields_default_witness :
    dictGet [] "balance" (PyVal.vint 0) = PyVal.vint 0 ∧
    dictGet [] "currency" (PyVal.vstr "USD") = PyVal.vstr "USD" :=
  ⟨(missing_fields_default []).1 rfl, (missing_fields_default []).2 rfl⟩

end Quickstart
